import Mathlib

/-!
Shallow embedding of the Multi-Set Alignment (MSA) metric engine of
`src/eval.py`: `compute_msa_per_label` (PointMatcher), `compute_msa`
(SampleAligner over a corpus) and `summarize_msa` (CorpusAggregator).

Modelling conventions:
* Python floats are embedded as `ℚ`.  The source computes the pairwise cost
  as the floating-point Euclidean norm `np.linalg.norm(gts[i] - preds[j])`;
  since the square root is not a rational operation, the pairwise distance
  function is a parameter `dist : Point → Point → ℚ` of the embedding.  Every
  claim either quantifies over arbitrary cost matrices or is independent of
  the numeric values of the distances, so nothing below depends on which
  `dist` is supplied.
* `scipy.optimize.linear_sum_assignment` is embedded as an executable
  brute-force minimiser over all one-to-one pairings of size `min n m`
  (`linear_sum_assignment` below), matching the library's documented
  contract: it returns a globally cost-minimising assignment of size
  `min n m` for an `n × m` cost matrix.
* Python `dict`s (label → point list) are embedded as association lists
  `List (String × List Point)`; `set(keys)` becomes `(·.map Prod.fst).dedup`
  and `set.add` becomes append-if-absent.  Python's `set` iteration order is
  unspecified; the embedding fixes the key order of the association list,
  which no claim depends on.
* Python `int` is embedded as `ℤ` (arbitrary precision, possibly negative),
  `float('inf')` as the `none` case of an `Option ℚ`.
-/

/-- A 2-D point, source `Point {x : float, y : float}` / `[x, y]`. -/
def Point : Type := ℚ × ℚ

instance : DecidableEq Point := instDecidableEqProd

instance : Inhabited Point := ⟨((0 : ℚ), (0 : ℚ))⟩

/-- Result record of `compute_msa_per_label` (the dict literal at
`eval.py:141-148`, without the label key that `compute_msa` adds). -/
structure MsaResult where
  average_euclidean_distance : ℚ
  num_matched : ℤ
  false_positives : ℤ
  false_negatives : ℤ
deriving DecidableEq

/-- One entry of `point_metrics_per_label`.  The entries synthesized for
false-negative / false-positive labels (`eval.py:178-200`) additionally carry
constant `precision`/`recall` keys that the matched-label entries lack; these
are embedded as `Option ℚ` fields (`none` on matched-label entries). -/
structure PerLabelMetrics where
  label : String
  average_euclidean_distance : ℚ
  num_matched : ℤ
  false_positives : ℤ
  false_negatives : ℤ
  precision : Option ℚ
  «recall» : Option ℚ
deriving DecidableEq

/-- The per-sample dict built at `eval.py:158-163`. -/
structure SampleMetrics where
  num_matched_labels : ℤ
  false_positive_labels : ℤ
  false_negative_labels : ℤ
  point_metrics_per_label : List PerLabelMetrics
deriving DecidableEq

/-- All ways of choosing an ordered list of `k` distinct elements of `cols`.
Used to enumerate the candidate column choices of a rectangular assignment. -/
def selections : Nat → List Nat → List (List Nat)
  | 0, _ => [[]]
  | k + 1, cols => cols.flatMap (fun j => (selections k (cols.erase j)).map (fun js => j :: js))

/-- Total cost of a pairing under cost matrix `c` (sum of the selected
cells, the quantity `linear_sum_assignment` minimises). -/
def totalCost (c : Nat → Nat → ℚ) (p : List (Nat × Nat)) : ℚ :=
  (p.map (fun pr => c pr.1 pr.2)).sum

/-- All one-to-one pairings of size `min n m` between rows `0..n-1` and
columns `0..m-1`: the feasible set of the rectangular linear assignment
problem on an `n × m` cost matrix. -/
def pairings (n m : Nat) : List (List (Nat × Nat)) :=
  if n ≤ m then (selections n (List.range m)).map (fun js => (List.range n).zip js)
  else (selections m (List.range n)).map (fun is => is.zip (List.range m))

/-- Fold selecting a minimum-cost pairing (first minimum wins). -/
def bestPairing (c : Nat → Nat → ℚ) : List (List (Nat × Nat)) → List (Nat × Nat) → List (Nat × Nat)
  | [], best => best
  | p :: ps, best => bestPairing c ps (if totalCost c p < totalCost c best then p else best)

/-- Embedding of `scipy.optimize.linear_sum_assignment` on an `n × m` cost
matrix `c` (`eval.py:138`): a globally minimum-cost one-to-one pairing of
size `min n m`, computed by brute force over the feasible set. -/
def linear_sum_assignment (n m : Nat) (c : Nat → Nat → ℚ) : List (Nat × Nat) :=
  match pairings n m with
  | [] => []
  | p :: ps => bestPairing c ps p

/-- The cost matrix of `eval.py:134-137`: cell `(i, j)` is the pairwise
distance between `gts[i]` and `preds[j]` (the Euclidean norm in the source;
here the parameter `dist`). -/
def costMatrix (dist : Point → Point → ℚ) (gts preds : List Point) : Nat → Nat → ℚ :=
  fun i j => dist (gts.getD i default) (preds.getD j default)

/-- `compute_msa_per_label` (`eval.py:132-148`): solve the assignment
problem on the pairwise cost matrix, then report the matched count, the
unmatched counts on either side, and the mean matched distance. -/
def compute_msa_per_label (dist : Point → Point → ℚ) (gts preds : List Point) : MsaResult :=
  let n := gts.length
  let m := preds.length
  let c := costMatrix dist gts preds
  let pairing := linear_sum_assignment n m c
  let matched_distances := pairing.map (fun pr => c pr.1 pr.2)
  let num_matched := pairing.length
  { average_euclidean_distance :=
      if 0 < num_matched then matched_distances.sum / (num_matched : ℚ) else 0
    num_matched := (num_matched : ℤ)
    false_positives := (m : ℤ) - (num_matched : ℤ)
    false_negatives := (n : ℤ) - (num_matched : ℤ) }

/-- A labelled point set: one sample's ground truth or prediction, a Python
dict from label name to point list embedded as an association list. -/
def LabeledPointSet : Type := List (String × List Point)

/-- `set(d.keys())` — the distinct labels of a mapping. -/
def labelSet (s : LabeledPointSet) : List String :=
  (s.map Prod.fst).dedup

/-- `d[label]` — the point list stored under `label` (`[]` when absent;
the source only indexes labels that are present). -/
def getPts (s : LabeledPointSet) (label : String) : List Point :=
  (s.lookup label).getD []

/-- `matched_ids = gt_ids & pred_ids` (`eval.py:155`). -/
def matchedIds (gt pred : LabeledPointSet) : List String :=
  (labelSet gt).filter (fun l => l ∈ labelSet pred)

/-- `false_negative_labels = gt_ids - pred_ids` (`eval.py:156`), the initial
set before the reclassification loop mutates it. -/
def fnLabels0 (gt pred : LabeledPointSet) : List String :=
  (labelSet gt).filter (fun l => l ∉ labelSet pred)

/-- `false_positive_labels = pred_ids - gt_ids` (`eval.py:157`), the initial
set before the reclassification loop mutates it. -/
def fpLabels0 (gt pred : LabeledPointSet) : List String :=
  (labelSet pred).filter (fun l => l ∉ labelSet gt)

/-- `s.add(label)` on a Python set, embedded on duplicate-free lists as
append-if-absent. -/
def addLabel (label : String) (s : List String) : List String :=
  if label ∈ s then s else s ++ [label]

/-- Tag a `compute_msa_per_label` result with its label
(`{"label": label, **compute_msa_per_label(...)}`, `eval.py:169`). -/
def withLabel (label : String) (r : MsaResult) : PerLabelMetrics :=
  { label := label
    average_euclidean_distance := r.average_euclidean_distance
    num_matched := r.num_matched
    false_positives := r.false_positives
    false_negatives := r.false_negatives
    precision := none
    «recall» := none }

/-- One iteration of the loop over `matched_ids` (`eval.py:164-174`): the
accumulator holds the appended matched-label records and the mutable
`false_negative_labels` / `false_positive_labels` sets. -/
def alignStep (dist : Point → Point → ℚ) (gt pred : LabeledPointSet)
    (acc : List PerLabelMetrics × List String × List String) (label : String) :
    List PerLabelMetrics × List String × List String :=
  let gt_points := getPts gt label
  let pred_points := getPts pred label
  if 0 < gt_points.length ∧ 0 < pred_points.length then
    (acc.1 ++ [withLabel label (compute_msa_per_label dist gt_points pred_points)], acc.2.1, acc.2.2)
  else if gt_points.length ≤ 0 then
    (acc.1, addLabel label acc.2.1, acc.2.2)
  else if pred_points.length ≤ 0 then
    (acc.1, acc.2.1, addLabel label acc.2.2)
  else
    acc

/-- The state after the loop over `matched_ids`: matched-label records,
final `false_negative_labels` set, final `false_positive_labels` set. -/
def alignedSets (dist : Point → Point → ℚ) (gt pred : LabeledPointSet) :
    List PerLabelMetrics × List String × List String :=
  (matchedIds gt pred).foldl (alignStep dist gt pred)
    ([], fnLabels0 gt pred, fpLabels0 gt pred)

/-- The record synthesized for a label of the final `false_negative_labels`
set (`eval.py:177-188`). -/
def fnRecord (gt : LabeledPointSet) (label : String) : PerLabelMetrics :=
  { label := label
    average_euclidean_distance := 0
    num_matched := 0
    false_positives := 0
    false_negatives := ((getPts gt label).length : ℤ)
    precision := some 0
    «recall» := some 0 }

/-- The record synthesized for a label of the final `false_positive_labels`
set (`eval.py:189-200`). -/
def fpRecord (pred : LabeledPointSet) (label : String) : PerLabelMetrics :=
  { label := label
    average_euclidean_distance := 0
    num_matched := 0
    false_positives := ((getPts pred label).length : ℤ)
    false_negatives := 0
    precision := some 0
    «recall» := some 0 }

/-- One iteration of the loop over samples in `compute_msa`
(`eval.py:153-201`).  The three label counts are the lengths taken when the
`metrics` dict literal is evaluated (`eval.py:158-163`), i.e. BEFORE the
loop over `matched_ids` mutates the fn/fp sets; the synthesized fn/fp
records use the sets as they stand AFTER that loop. -/
def compute_msa_sample (dist : Point → Point → ℚ) (gt pred : LabeledPointSet) : SampleMetrics :=
  let num_matched_labels := (matchedIds gt pred).length
  let false_positive_labels := (fpLabels0 gt pred).length
  let false_negative_labels := (fnLabels0 gt pred).length
  let aligned := alignedSets dist gt pred
  { num_matched_labels := (num_matched_labels : ℤ)
    false_positive_labels := (false_positive_labels : ℤ)
    false_negative_labels := (false_negative_labels : ℤ)
    point_metrics_per_label :=
      aligned.1 ++ aligned.2.1.map (fnRecord gt) ++ aligned.2.2.map (fpRecord pred) }

/-- `compute_msa` (`eval.py:151-202`): `zip(gt_list, pred_list)` truncates
to the shorter list; each pair is aligned independently. -/
def compute_msa (dist : Point → Point → ℚ) (gt_list pred_list : List LabeledPointSet) :
    List SampleMetrics :=
  (gt_list.zip pred_list).map (fun sample => compute_msa_sample dist sample.1 sample.2)

/-- `label_metrics` sub-dict of the summary (`eval.py:259-263`). -/
structure LabelMetricsSummary where
  precision : ℚ
  «recall» : ℚ
  f1 : ℚ
deriving DecidableEq

/-- `point_metrics` sub-dict of the summary (`eval.py:264-269`);
`avg_euclidean_distance` is `none` when the source returns `float('inf')`. -/
structure PointMetricsSummary where
  precision : ℚ
  «recall» : ℚ
  f1 : ℚ
  avg_euclidean_distance : Option ℚ
deriving DecidableEq

/-- The dict returned by `summarize_msa` (`eval.py:258-270`). -/
structure CorpusSummary where
  label_metrics : LabelMetricsSummary
  point_metrics : PointMetricsSummary
deriving DecidableEq

/-- Python 3 `round` to an integer: round-half-to-even.  On a half-integer
`q`, `2 * round (q / 2)` is the even neighbour of `q`; elsewhere it is the
nearest integer. -/
def pyRound (q : ℚ) : ℤ :=
  if Int.fract q = 1 / 2 then 2 * round (q / 2) else round q

/-- Python `round(q, 2)`: round-half-to-even at two decimal places. -/
def roundTo2 (q : ℚ) : ℚ :=
  (pyRound (q * 100) : ℚ) / 100

/-- The two tally loops of `summarize_msa` (`eval.py:205-219`): the label
tally `(matched, fp, fn)` and the point tally
`(matched, fp, fn, euclidean_distance)`, accumulated sample by sample with
the inner loop over `point_metrics_per_label` nested inside. -/
def summarize_tally (msa : List SampleMetrics) : (ℤ × ℤ × ℤ) × (ℤ × ℤ × ℤ × ℚ) :=
  msa.foldl
    (fun acc metric =>
      ((acc.1.1 + metric.num_matched_labels,
        acc.1.2.1 + metric.false_positive_labels,
        acc.1.2.2 + metric.false_negative_labels),
       metric.point_metrics_per_label.foldl
         (fun tp pm =>
           (tp.1 + pm.num_matched,
            tp.2.1 + pm.false_positives,
            tp.2.2.1 + pm.false_negatives,
            tp.2.2.2 + pm.average_euclidean_distance * (pm.num_matched : ℚ)))
         acc.2))
    ((0, 0, 0), (0, 0, 0, 0))

/-- `label_precision` (`eval.py:222-226`). -/
def label_precision (msa : List SampleMetrics) : ℚ :=
  let t := (summarize_tally msa).1
  if 0 < t.2.1 + t.1 then (t.1 : ℚ) / ((t.1 : ℚ) + (t.2.1 : ℚ)) else 0

/-- `label_recall` (`eval.py:227-231`). -/
def label_recall (msa : List SampleMetrics) : ℚ :=
  let t := (summarize_tally msa).1
  if 0 < t.2.2 + t.1 then (t.1 : ℚ) / ((t.1 : ℚ) + (t.2.2 : ℚ)) else 0

/-- `label_f1` (`eval.py:232-236`). -/
def label_f1 (msa : List SampleMetrics) : ℚ :=
  if 0 < label_precision msa + label_recall msa then
    2 * label_precision msa * label_recall msa / (label_precision msa + label_recall msa)
  else 0

/-- `point_precision` (`eval.py:237-241`). -/
def point_precision (msa : List SampleMetrics) : ℚ :=
  let t := (summarize_tally msa).2
  if 0 < t.2.1 + t.1 then (t.1 : ℚ) / ((t.1 : ℚ) + (t.2.1 : ℚ)) else 0

/-- `point_recall` (`eval.py:242-246`). -/
def point_recall (msa : List SampleMetrics) : ℚ :=
  let t := (summarize_tally msa).2
  if 0 < t.2.2.1 + t.1 then (t.1 : ℚ) / ((t.1 : ℚ) + (t.2.2.1 : ℚ)) else 0

/-- `point_f1` (`eval.py:247-251`). -/
def point_f1 (msa : List SampleMetrics) : ℚ :=
  if 0 < point_precision msa + point_recall msa then
    2 * point_precision msa * point_recall msa / (point_precision msa + point_recall msa)
  else 0

/-- `avg_euclidean_distance` (`eval.py:252-256`): the weighted distance sum
divided by the total matched point count, or `float('inf')` (here `none`)
when nothing was matched. -/
def avg_euclidean_distance (msa : List SampleMetrics) : Option ℚ :=
  let t := (summarize_tally msa).2
  if 0 < t.1 then some (t.2.2.2 / (t.1 : ℚ)) else none

/-- `summarize_msa` (`eval.py:205-270`): tally, derive the guarded ratios,
round everything to two decimals (`round(inf, 2)` is `inf`, i.e. `none`
stays `none`). -/
def summarize_msa (msa : List SampleMetrics) : CorpusSummary :=
  { label_metrics :=
      { precision := roundTo2 (label_precision msa)
        «recall» := roundTo2 (label_recall msa)
        f1 := roundTo2 (label_f1 msa) }
    point_metrics :=
      { precision := roundTo2 (point_precision msa)
        «recall» := roundTo2 (point_recall msa)
        f1 := roundTo2 (point_f1 msa)
        avg_euclidean_distance := (avg_euclidean_distance msa).map roundTo2 } }

/-- A list splits, in length, into the part satisfying a predicate and the
part refuting it. -/
theorem length_filter_partition {α : Type} (p : α → Prop) [DecidablePred p] (l : List α) :
    (l.filter (fun a => decide (p a))).length + (l.filter (fun a => decide (¬ p a))).length
      = l.length := by
  induction l with
  | nil => rfl
  | cons a l ih =>
    by_cases h : p a <;> simp [List.filter, h, ← ih] <;> omega

/-- A label absent from a mapping's key set looks up to the empty list. -/
theorem getPts_of_not_mem (s : LabeledPointSet) (l : String) (h : l ∉ labelSet s) :
    getPts s l = [] := by
  have h' : l ∉ s.map Prod.fst := by
    simpa [labelSet, List.mem_dedup] using h
  induction s with
  | nil => rfl
  | cons kv rest ih =>
    have hk : l ≠ kv.1 := by
      intro he
      exact h' (by simp [he])
    have hrest : l ∉ rest.map Prod.fst := fun hm => h' (by simp [hm])
    have : (l == kv.1) = false := by
      simpa [beq_eq_false_iff_ne] using hk
    simpa [getPts, List.lookup, this] using ih (by simpa [labelSet, List.mem_dedup] using hrest) hrest

/-- Every selection has the requested length. -/
theorem selections_length {k : Nat} {cols js : List Nat} (h : js ∈ selections k cols) :
    js.length = k := by
  induction k generalizing cols js with
  | zero => simp [selections] at h; simp [h]
  | succ k ih =>
    simp only [selections, List.mem_flatMap, List.mem_map] at h
    obtain ⟨j, _, rest, hrest, rfl⟩ := h
    simp [ih hrest]

/-- Every element of a selection comes from the candidate pool. -/
theorem selections_subset {k : Nat} {cols js : List Nat} (h : js ∈ selections k cols) :
    ∀ x ∈ js, x ∈ cols := by
  induction k generalizing cols js with
  | zero => simp [selections] at h; simp [h]
  | succ k ih =>
    simp only [selections, List.mem_flatMap, List.mem_map] at h
    obtain ⟨j, hj, rest, hrest, rfl⟩ := h
    intro x hx
    rcases List.mem_cons.mp hx with rfl | hx
    · exact hj
    · exact List.erase_subset _ _ (ih hrest x hx)

/-- Selections from a duplicate-free pool are duplicate-free. -/
theorem selections_nodup {k : Nat} {cols js : List Nat} (hc : cols.Nodup)
    (h : js ∈ selections k cols) : js.Nodup := by
  induction k generalizing cols js with
  | zero => simp [selections] at h; simp [h]
  | succ k ih =>
    simp only [selections, List.mem_flatMap, List.mem_map] at h
    obtain ⟨j, hj, rest, hrest, rfl⟩ := h
    have hrn : rest.Nodup := ih (hc.erase j) hrest
    refine List.nodup_cons.mpr ⟨fun hm => ?_, hrn⟩
    exact hc.not_mem_erase (selections_subset hrest j hm)

/-- Completeness of the enumeration: every duplicate-free list drawn from
the pool is a selection. -/
theorem selections_complete {js cols : List Nat} (hnd : js.Nodup)
    (hsub : ∀ x ∈ js, x ∈ cols) : js ∈ selections js.length cols := by
  induction js generalizing cols with
  | nil => simp [selections]
  | cons j rest ih =>
    have hjc : j ∈ cols := hsub j (by simp)
    have hrest : ∀ x ∈ rest, x ∈ cols.erase j := by
      intro x hx
      have hxj : x ≠ j := by
        intro he
        exact (List.nodup_cons.mp hnd).1 (he ▸ hx)
      exact (List.mem_erase_of_ne hxj).mpr (hsub x (by simp [hx]))
    have := ih (List.nodup_cons.mp hnd).2 hrest
    simp only [List.length_cons, selections, List.mem_flatMap, List.mem_map]
    exact ⟨j, hjc, rest, this, rfl⟩

/-- Every feasible pairing has size `min n m`. -/
theorem pairings_length {n m : Nat} {p : List (Nat × Nat)} (h : p ∈ pairings n m) :
    p.length = min n m := by
  unfold pairings at h
  by_cases hle : n ≤ m
  · simp only [if_pos hle, List.mem_map] at h
    obtain ⟨js, hjs, rfl⟩ := h
    rw [List.length_zip, List.length_range, selections_length hjs]
    omega
  · simp only [if_neg hle, List.mem_map] at h
    obtain ⟨is, his, rfl⟩ := h
    rw [List.length_zip, List.length_range, selections_length his]
    omega

/-- The feasible set of the assignment problem is never empty. -/
theorem pairings_ne_nil (n m : Nat) : pairings n m ≠ [] := by
  unfold pairings
  by_cases hle : n ≤ m
  · have h : (List.range m).take n ∈ selections n (List.range m) := by
      have := selections_complete (((List.range m).take_sublist n).nodup (List.nodup_range m))
        (fun x hx => ((List.range m).take_sublist n).mem hx)
      rwa [List.length_take, List.length_range, Nat.min_eq_left hle] at this
    simp only [if_pos hle]
    intro hc
    rw [List.map_eq_nil_iff] at hc
    rw [hc] at h
    exact (List.not_mem_nil _) h
  · have hle' : m ≤ n := Nat.le_of_not_le hle
    have h : (List.range n).take m ∈ selections m (List.range n) := by
      have := selections_complete (((List.range n).take_sublist m).nodup (List.nodup_range n))
        (fun x hx => ((List.range n).take_sublist m).mem hx)
      rwa [List.length_take, List.length_range, Nat.min_eq_left hle'] at this
    simp only [if_neg hle]
    intro hc
    rw [List.map_eq_nil_iff] at hc
    rw [hc] at h
    exact (List.not_mem_nil _) h

/-- The fold keeps a candidate of the running list. -/
theorem bestPairing_mem (c : Nat → Nat → ℚ) (ps : List (List (Nat × Nat)))
    (best : List (Nat × Nat)) : bestPairing c ps best ∈ best :: ps := by
  induction ps generalizing best with
  | nil => simp [bestPairing]
  | cons p ps ih =>
    have h := ih (if totalCost c p < totalCost c best then p else best)
    have he : bestPairing c (p :: ps) best
        = bestPairing c ps (if totalCost c p < totalCost c best then p else best) := rfl
    rw [he]
    rcases List.mem_cons.mp h with heq | hm
    · rw [heq]
      by_cases hc : totalCost c p < totalCost c best
      · rw [if_pos hc]; simp
      · rw [if_neg hc]; simp
    · exact List.mem_cons.mpr (Or.inr (List.mem_cons.mpr (Or.inr hm)))

/-- The fold returns a cost-minimal candidate. -/
theorem bestPairing_le (c : Nat → Nat → ℚ) (ps : List (List (Nat × Nat)))
    (best : List (Nat × Nat)) :
    ∀ q ∈ best :: ps, totalCost c (bestPairing c ps best) ≤ totalCost c q := by
  induction ps generalizing best with
  | nil =>
    intro q hq
    rcases List.mem_cons.mp hq with rfl | h
    · simp [bestPairing]
    · exact absurd h (List.not_mem_nil q)
  | cons p ps ih =>
    intro q hq
    have he : bestPairing c (p :: ps) best
        = bestPairing c ps (if totalCost c p < totalCost c best then p else best) := rfl
    have hhead : totalCost c (bestPairing c ps (if totalCost c p < totalCost c best then p else best))
        ≤ totalCost c (if totalCost c p < totalCost c best then p else best) :=
      ih (if totalCost c p < totalCost c best then p else best) _ (by simp)
    have hb'p : totalCost c (if totalCost c p < totalCost c best then p else best)
        ≤ totalCost c p := by
      by_cases hc : totalCost c p < totalCost c best
      · rw [if_pos hc]
      · rw [if_neg hc]; exact le_of_not_lt hc
    have hb'best : totalCost c (if totalCost c p < totalCost c best then p else best)
        ≤ totalCost c best := by
      by_cases hc : totalCost c p < totalCost c best
      · rw [if_pos hc]; exact le_of_lt hc
      · rw [if_neg hc]
    rw [he]
    rcases List.mem_cons.mp hq with rfl | hq'
    · exact le_trans hhead hb'best
    · rcases List.mem_cons.mp hq' with rfl | hq''
      · exact le_trans hhead hb'p
      · exact ih (if totalCost c p < totalCost c best then p else best) q (by simp [hq''])

/-- The solver picks a feasible pairing. -/
theorem linear_sum_assignment_mem (n m : Nat) (c : Nat → Nat → ℚ) :
    linear_sum_assignment n m c ∈ pairings n m := by
  unfold linear_sum_assignment
  split
  · next h => exact absurd h (pairings_ne_nil n m)
  · next p ps h => rw [h]; exact bestPairing_mem c ps p

/-- The solver returns `min n m` matched pairs. -/
theorem linear_sum_assignment_length (n m : Nat) (c : Nat → Nat → ℚ) :
    (linear_sum_assignment n m c).length = min n m :=
  pairings_length (linear_sum_assignment_mem n m c)

/-- The solver's pairing is cost-minimal among all feasible pairings. -/
theorem linear_sum_assignment_min (n m : Nat) (c : Nat → Nat → ℚ) :
    ∀ p ∈ pairings n m, totalCost c (linear_sum_assignment n m c) ≤ totalCost c p := by
  unfold linear_sum_assignment
  split
  · next h => exact absurd h (pairings_ne_nil n m)
  · next p ps h =>
    intro q hq
    exact bestPairing_le c ps p q (h ▸ hq)

/-- Membership in the label intersection. -/
theorem mem_matchedIds {gt pred : LabeledPointSet} {l : String} :
    l ∈ matchedIds gt pred ↔ l ∈ labelSet gt ∧ l ∈ labelSet pred := by
  simp [matchedIds, List.mem_filter]

/-- Membership in the initial false-negative label set. -/
theorem mem_fnLabels0 {gt pred : LabeledPointSet} {l : String} :
    l ∈ fnLabels0 gt pred ↔ l ∈ labelSet gt ∧ l ∉ labelSet pred := by
  simp [fnLabels0, List.mem_filter]

/-- Membership in the initial false-positive label set. -/
theorem mem_fpLabels0 {gt pred : LabeledPointSet} {l : String} :
    l ∈ fpLabels0 gt pred ↔ l ∈ labelSet pred ∧ l ∉ labelSet gt := by
  simp [fpLabels0, List.mem_filter]

/-- Closed form of the loop over `matched_ids`: matched-label records are
appended for the labels with two non-empty point lists, labels with an
empty ground-truth list join the false-negative set, and labels with a
non-empty ground-truth list but an empty prediction list join the
false-positive set — the `if`/`elif` precedence of `eval.py:167-174`. -/
theorem align_foldl (dist : Point → Point → ℚ) (gt pred : LabeledPointSet)
    (labels : List String) (recs : List PerLabelMetrics) (fn fp : List String)
    (hnd : labels.Nodup) (hfn : ∀ l ∈ labels, l ∉ fn) (hfp : ∀ l ∈ labels, l ∉ fp) :
    labels.foldl (alignStep dist gt pred) (recs, fn, fp) =
      (recs ++ (labels.filter
          (fun l => decide (0 < (getPts gt l).length ∧ 0 < (getPts pred l).length))).map
          (fun l => withLabel l (compute_msa_per_label dist (getPts gt l) (getPts pred l))),
       fn ++ labels.filter (fun l => decide ((getPts gt l).length = 0)),
       fp ++ labels.filter
          (fun l => decide (0 < (getPts gt l).length ∧ (getPts pred l).length = 0))) := by
  induction labels generalizing recs fn fp with
  | nil => simp
  | cons l labels ih =>
    have hnd' : labels.Nodup := (List.nodup_cons.mp hnd).2
    have hlnot : l ∉ labels := (List.nodup_cons.mp hnd).1
    have hfn' : ∀ x ∈ labels, x ∉ fn := fun x hx => hfn x (by simp [hx])
    have hfp' : ∀ x ∈ labels, x ∉ fp := fun x hx => hfp x (by simp [hx])
    by_cases hgp : (getPts gt l).length = 0
    · have hgnil : getPts gt l = [] := List.length_eq_zero.mp hgp
      have hnboth : ¬ (0 < (getPts gt l).length ∧ 0 < (getPts pred l).length) := by
        intro h; omega
      have hnfp : ¬ (0 < (getPts gt l).length ∧ (getPts pred l).length = 0) := by
        intro h; omega
      have hstep : alignStep dist gt pred (recs, fn, fp) l = (recs, fn ++ [l], fp) := by
        simp [alignStep, addLabel, hgp, hfn l (by simp)]
      have hfn'' : ∀ x ∈ labels, x ∉ fn ++ [l] := by
        intro x hx
        simp only [List.mem_append, List.mem_singleton]
        rintro (h | rfl)
        · exact hfn' x hx h
        · exact hlnot hx
      rw [List.foldl_cons, hstep, ih recs (fn ++ [l]) fp hnd' hfn'' hfp']
      simp [List.filter_cons, hgp, hnboth, hnfp, hgnil]
    · have hgp' : 0 < (getPts gt l).length := Nat.pos_of_ne_zero hgp
      have hgnil : getPts gt l ≠ [] := by
        simpa [← List.length_eq_zero] using hgp
      by_cases hpp : (getPts pred l).length = 0
      · have hpnil : getPts pred l = [] := List.length_eq_zero.mp hpp
        have hnboth : ¬ (0 < (getPts gt l).length ∧ 0 < (getPts pred l).length) := by
          intro h; omega
        have hstep : alignStep dist gt pred (recs, fn, fp) l = (recs, fn, fp ++ [l]) := by
          simp [alignStep, addLabel, hgp, hpp, hfp l (by simp)]
        have hfp'' : ∀ x ∈ labels, x ∉ fp ++ [l] := by
          intro x hx
          simp only [List.mem_append, List.mem_singleton]
          rintro (h | rfl)
          · exact hfp' x hx h
          · exact hlnot hx
        rw [List.foldl_cons, hstep, ih recs fn (fp ++ [l]) hnd' hfn' hfp'']
        simp [List.filter_cons, hgp, hnboth, hpp, hgp', hgnil, hpnil]
      · have hpnil : getPts pred l ≠ [] := by
          simpa [← List.length_eq_zero] using hpp
        have hboth : 0 < (getPts gt l).length ∧ 0 < (getPts pred l).length :=
          ⟨hgp', Nat.pos_of_ne_zero hpp⟩
        have hstep : alignStep dist gt pred (recs, fn, fp) l =
            (recs ++ [withLabel l (compute_msa_per_label dist (getPts gt l) (getPts pred l))],
             fn, fp) := by
          simp [alignStep, hboth]
        rw [List.foldl_cons, hstep, ih _ fn fp hnd' hfn' hfp']
        simp [List.filter_cons, hboth, hgp, hpp, hgnil, hpnil]

/-- The label intersection is duplicate-free. -/
theorem matchedIds_nodup (gt pred : LabeledPointSet) : (matchedIds gt pred).Nodup :=
  (List.nodup_dedup _).filter _

/-- Closed form of `alignedSets`. -/
theorem alignedSets_eq (dist : Point → Point → ℚ) (gt pred : LabeledPointSet) :
    alignedSets dist gt pred =
      (((matchedIds gt pred).filter
          (fun l => decide (0 < (getPts gt l).length ∧ 0 < (getPts pred l).length))).map
          (fun l => withLabel l (compute_msa_per_label dist (getPts gt l) (getPts pred l))),
       fnLabels0 gt pred ++ (matchedIds gt pred).filter
          (fun l => decide ((getPts gt l).length = 0)),
       fpLabels0 gt pred ++ (matchedIds gt pred).filter
          (fun l => decide (0 < (getPts gt l).length ∧ (getPts pred l).length = 0))) := by
  have hfn : ∀ l ∈ matchedIds gt pred, l ∉ fnLabels0 gt pred := by
    intro l hl hmem
    exact (mem_fnLabels0.mp hmem).2 (mem_matchedIds.mp hl).2
  have hfp : ∀ l ∈ matchedIds gt pred, l ∉ fpLabels0 gt pred := by
    intro l hl hmem
    exact (mem_fpLabels0.mp hmem).2 (mem_matchedIds.mp hl).1
  have := align_foldl dist gt pred (matchedIds gt pred) [] (fnLabels0 gt pred)
    (fpLabels0 gt pred) (matchedIds_nodup gt pred) hfn hfp
  simpa [alignedSets] using this

/-- Both tallies of `summarize_msa` in closed form: each component is the
corresponding sum over all samples / all per-label entries. -/
theorem summarize_tally_eq (msa : List SampleMetrics) :
    summarize_tally msa =
      (((msa.map (·.num_matched_labels)).sum,
        (msa.map (·.false_positive_labels)).sum,
        (msa.map (·.false_negative_labels)).sum),
       (((msa.flatMap (·.point_metrics_per_label)).map (·.num_matched)).sum,
        ((msa.flatMap (·.point_metrics_per_label)).map (·.false_positives)).sum,
        ((msa.flatMap (·.point_metrics_per_label)).map (·.false_negatives)).sum,
        ((msa.flatMap (·.point_metrics_per_label)).map
          (fun p => p.average_euclidean_distance * (p.num_matched : ℚ))).sum)) := by
  have inner : ∀ (pms : List PerLabelMetrics) (tp : ℤ × ℤ × ℤ × ℚ),
      pms.foldl (fun tp pm =>
          (tp.1 + pm.num_matched,
           tp.2.1 + pm.false_positives,
           tp.2.2.1 + pm.false_negatives,
           tp.2.2.2 + pm.average_euclidean_distance * (pm.num_matched : ℚ))) tp =
        (tp.1 + (pms.map (·.num_matched)).sum,
         tp.2.1 + (pms.map (·.false_positives)).sum,
         tp.2.2.1 + (pms.map (·.false_negatives)).sum,
         tp.2.2.2 + (pms.map (fun p => p.average_euclidean_distance * (p.num_matched : ℚ))).sum) := by
    intro pms
    induction pms with
    | nil => intro tp; simp
    | cons pm pms ih =>
      intro tp
      simp [List.foldl_cons, ih, add_assoc]
  have outer : ∀ (ms : List SampleMetrics) (acc : (ℤ × ℤ × ℤ) × (ℤ × ℤ × ℤ × ℚ)),
      ms.foldl (fun acc metric =>
          ((acc.1.1 + metric.num_matched_labels,
            acc.1.2.1 + metric.false_positive_labels,
            acc.1.2.2 + metric.false_negative_labels),
           metric.point_metrics_per_label.foldl
             (fun tp pm =>
               (tp.1 + pm.num_matched,
                tp.2.1 + pm.false_positives,
                tp.2.2.1 + pm.false_negatives,
                tp.2.2.2 + pm.average_euclidean_distance * (pm.num_matched : ℚ)))
             acc.2)) acc =
        ((acc.1.1 + (ms.map (·.num_matched_labels)).sum,
          acc.1.2.1 + (ms.map (·.false_positive_labels)).sum,
          acc.1.2.2 + (ms.map (·.false_negative_labels)).sum),
         (acc.2.1 + ((ms.flatMap (·.point_metrics_per_label)).map (·.num_matched)).sum,
          acc.2.2.1 + ((ms.flatMap (·.point_metrics_per_label)).map (·.false_positives)).sum,
          acc.2.2.2.1 + ((ms.flatMap (·.point_metrics_per_label)).map (·.false_negatives)).sum,
          acc.2.2.2.2 + ((ms.flatMap (·.point_metrics_per_label)).map
            (fun p => p.average_euclidean_distance * (p.num_matched : ℚ))).sum)) := by
    intro ms
    induction ms with
    | nil => intro acc; simp
    | cons metric ms ih =>
      intro acc
      rw [List.foldl_cons, ih]
      simp [inner, add_assoc]
  simpa [summarize_tally] using outer msa ((0, 0, 0), (0, 0, 0, 0))

/-- Length of an intersection-style filter as a `Finset` intersection. -/
theorem length_filter_mem (l₁ l₂ : List String) (h₁ : l₁.Nodup) :
    (l₁.filter (fun x => decide (x ∈ l₂))).length = (l₁.toFinset ∩ l₂.toFinset).card := by
  rw [← List.toFinset_card_of_nodup (h₁.filter _)]
  congr 1
  ext x
  simp [List.mem_filter]

/-- Length of a difference-style filter as a `Finset` difference. -/
theorem length_filter_not_mem (l₁ l₂ : List String) (h₁ : l₁.Nodup) :
    (l₁.filter (fun x => decide (x ∉ l₂))).length = (l₁.toFinset \ l₂.toFinset).card := by
  rw [← List.toFinset_card_of_nodup (h₁.filter _)]
  congr 1
  ext x
  simp [List.mem_filter]

/-- C10: `compute_msa` silently truncates to the shorter of the two corpus
lists — it returns exactly `min |gt_list| |pred_list|` per-sample metric
records and, being a total function, raises no error on a length mismatch. -/
theorem compute_msa_truncates (dist : Point → Point → ℚ)
    (gt_list pred_list : List LabeledPointSet) :
    (compute_msa dist gt_list pred_list).length = min gt_list.length pred_list.length := by
  simp [compute_msa, List.length_zip]

/-- C8: per sample, matched labels plus false-negative labels count the
distinct ground-truth labels, and matched labels plus false-positive labels
count the distinct predicted labels — all three counts are taken from the
initial intersection / differences, before the reclassification loop runs. -/
theorem label_count_conservation (dist : Point → Point → ℚ) (gt pred : LabeledPointSet) :
    (compute_msa_sample dist gt pred).num_matched_labels
        + (compute_msa_sample dist gt pred).false_negative_labels
      = ((labelSet gt).length : ℤ) ∧
    (compute_msa_sample dist gt pred).num_matched_labels
        + (compute_msa_sample dist gt pred).false_positive_labels
      = ((labelSet pred).length : ℤ) := by
  have hgt : (labelSet gt).Nodup := List.nodup_dedup _
  have hpred : (labelSet pred).Nodup := List.nodup_dedup _
  constructor
  · have h := length_filter_partition (fun l => l ∈ labelSet pred) (labelSet gt)
    simp only [compute_msa_sample, matchedIds, fnLabels0]
    exact_mod_cast h
  · have hm : (matchedIds gt pred).length
        = ((labelSet gt).toFinset ∩ (labelSet pred).toFinset).card :=
      length_filter_mem _ _ hgt
    have hf : (fpLabels0 gt pred).length
        = ((labelSet pred).toFinset \ (labelSet gt).toFinset).card :=
      length_filter_not_mem _ _ hpred
    have hcard : ((labelSet gt).toFinset ∩ (labelSet pred).toFinset).card
        + ((labelSet pred).toFinset \ (labelSet gt).toFinset).card
        = (labelSet pred).toFinset.card := by
      rw [Finset.inter_comm]
      exact Finset.card_inter_add_card_sdiff _ _
    have h : (matchedIds gt pred).length + (fpLabels0 gt pred).length
        = (labelSet pred).length := by
      rw [hm, hf]
      exact hcard.trans (List.toFinset_card_of_nodup hpred)
    simp only [compute_msa_sample]
    exact_mod_cast h

/-- C4: on non-empty point lists of sizes `n` (ground truth) and `m`
(prediction), PointMatcher reports `num_matched = min n m` — no distance
threshold ever rejects a pairing — `false_positives = m - num_matched`,
`false_negatives = n - num_matched`, and an average distance equal to the
arithmetic mean of the `min n m` selected pair costs. -/
theorem point_matcher_counts (dist : Point → Point → ℚ) (gts preds : List Point)
    (hg : gts ≠ []) (hp : preds ≠ []) :
    (compute_msa_per_label dist gts preds).num_matched
        = ((min gts.length preds.length : ℕ) : ℤ) ∧
    (compute_msa_per_label dist gts preds).false_positives
        = (preds.length : ℤ) - ((min gts.length preds.length : ℕ) : ℤ) ∧
    (compute_msa_per_label dist gts preds).false_negatives
        = (gts.length : ℤ) - ((min gts.length preds.length : ℕ) : ℤ) ∧
    (compute_msa_per_label dist gts preds).average_euclidean_distance
        = ((linear_sum_assignment gts.length preds.length
              (costMatrix dist gts preds)).map
            (fun pr => costMatrix dist gts preds pr.1 pr.2)).sum
          / ((min gts.length preds.length : ℕ) : ℚ) := by
  have hlen := linear_sum_assignment_length gts.length preds.length
    (costMatrix dist gts preds)
  have hpos : 0 < min gts.length preds.length :=
    lt_min (List.length_pos.mpr hg) (List.length_pos.mpr hp)
  refine ⟨?_, ?_, ?_, ?_⟩
  · simp [compute_msa_per_label, hlen]
  · simp [compute_msa_per_label, hlen]
  · simp [compute_msa_per_label, hlen]
  · simp only [compute_msa_per_label, hlen]
    rw [if_pos hpos]

/-- C3, half the feasible directions: when `n ≤ m`, the solver's total cost
is a lower bound on the cost of every injective pairing of the rows into
the columns; when `m < n`, on that of every injective pairing of the
columns into the rows.  Together these cover every one-to-one pairing of
size `min n m` of the cost matrix built from the two point lists. -/
theorem point_matcher_optimal (dist : Point → Point → ℚ) (gts preds : List Point)
    (hg : gts ≠ []) (hp : preds ≠ []) :
    (gts.length ≤ preds.length →
      ∀ f : Nat → Nat, (∀ i, i < gts.length → f i < preds.length) →
        (∀ i j, i < gts.length → j < gts.length → f i = f j → i = j) →
        totalCost (costMatrix dist gts preds)
            (linear_sum_assignment gts.length preds.length (costMatrix dist gts preds))
          ≤ ((List.range gts.length).map
              (fun i => costMatrix dist gts preds i (f i))).sum) ∧
    (preds.length < gts.length →
      ∀ g : Nat → Nat, (∀ j, j < preds.length → g j < gts.length) →
        (∀ i j, i < preds.length → j < preds.length → g i = g j → i = j) →
        totalCost (costMatrix dist gts preds)
            (linear_sum_assignment gts.length preds.length (costMatrix dist gts preds))
          ≤ ((List.range preds.length).map
              (fun j => costMatrix dist gts preds (g j) j)).sum) := by
  constructor
  · intro hle f hbound hinj
    have hnd : ((List.range gts.length).map f).Nodup :=
      List.Nodup.map_on
        (fun x hx y hy hxy =>
          hinj x y (List.mem_range.mp hx) (List.mem_range.mp hy) hxy)
        (List.nodup_range gts.length)
    have hsub : ∀ x ∈ (List.range gts.length).map f, x ∈ List.range preds.length := by
      intro x hx
      obtain ⟨i, hi, rfl⟩ := List.mem_map.mp hx
      exact List.mem_range.mpr (hbound i (List.mem_range.mp hi))
    have hjs : (List.range gts.length).map f
        ∈ selections gts.length (List.range preds.length) := by
      have := selections_complete hnd hsub
      rwa [List.length_map, List.length_range] at this
    have hpmem : (List.range gts.length).zip ((List.range gts.length).map f)
        ∈ pairings gts.length preds.length := by
      unfold pairings
      rw [if_pos hle]
      exact List.mem_map.mpr ⟨(List.range gts.length).map f, hjs, rfl⟩
    have hmin := linear_sum_assignment_min gts.length preds.length
      (costMatrix dist gts preds) _ hpmem
    refine le_trans hmin (le_of_eq ?_)
    have hz : (List.range gts.length).zip ((List.range gts.length).map f)
        = (List.range gts.length).map (fun a => (a, f a)) := by
      have := List.zip_map' id f (List.range gts.length)
      simpa using this
    rw [hz]
    simp only [totalCost, List.map_map]
    rfl
  · intro hlt g hbound hinj
    have hnd : ((List.range preds.length).map g).Nodup :=
      List.Nodup.map_on
        (fun x hx y hy hxy =>
          hinj x y (List.mem_range.mp hx) (List.mem_range.mp hy) hxy)
        (List.nodup_range preds.length)
    have hsub : ∀ x ∈ (List.range preds.length).map g, x ∈ List.range gts.length := by
      intro x hx
      obtain ⟨j, hj, rfl⟩ := List.mem_map.mp hx
      exact List.mem_range.mpr (hbound j (List.mem_range.mp hj))
    have his : (List.range preds.length).map g
        ∈ selections preds.length (List.range gts.length) := by
      have := selections_complete hnd hsub
      rwa [List.length_map, List.length_range] at this
    have hpmem : ((List.range preds.length).map g).zip (List.range preds.length)
        ∈ pairings gts.length preds.length := by
      unfold pairings
      rw [if_neg (Nat.not_le_of_lt hlt)]
      exact List.mem_map.mpr ⟨(List.range preds.length).map g, his, rfl⟩
    have hmin := linear_sum_assignment_min gts.length preds.length
      (costMatrix dist gts preds) _ hpmem
    refine le_trans hmin (le_of_eq ?_)
    have hz : ((List.range preds.length).map g).zip (List.range preds.length)
        = (List.range preds.length).map (fun a => (g a, a)) := by
      have := List.zip_map' g id (List.range preds.length)
      simpa using this
    rw [hz]
    simp only [totalCost, List.map_map]
    rfl

/-- C7: for a label present in both mappings, PointMatcher runs exactly when
both point lists are non-empty; an empty ground-truth list sends the label to
the false-negative set regardless of the prediction list (and never to the
false-positive set, by the `elif` precedence); only a non-empty ground-truth
list with an empty prediction list sends it to the false-positive set. -/
theorem matched_label_policy (dist : Point → Point → ℚ) (gt pred : LabeledPointSet)
    (label : String) (hm : label ∈ matchedIds gt pred) :
    ((getPts gt label ≠ [] ∧ getPts pred label ≠ []) ↔
        withLabel label (compute_msa_per_label dist (getPts gt label) (getPts pred label))
          ∈ (alignedSets dist gt pred).1) ∧
    (getPts gt label = [] →
        label ∈ (alignedSets dist gt pred).2.1 ∧ label ∉ (alignedSets dist gt pred).2.2) ∧
    (getPts gt label ≠ [] → getPts pred label = [] →
        label ∈ (alignedSets dist gt pred).2.2) := by
  rw [alignedSets_eq]
  refine ⟨⟨?_, ?_⟩, ?_, ?_⟩
  · intro ⟨hg, hp⟩
    exact List.mem_map.mpr ⟨label,
      List.mem_filter.mpr ⟨hm, by
        simp [List.length_pos.mpr hg, List.length_pos.mpr hp]⟩, rfl⟩
  · intro hmem
    obtain ⟨l', hl', heq⟩ := List.mem_map.mp hmem
    have hlab : l' = label := congrArg PerLabelMetrics.label heq
    subst hlab
    have := (List.mem_filter.mp hl').2
    simp only [decide_eq_true_eq] at this
    exact ⟨by simpa [← List.length_pos] using this.1,
      by simpa [← List.length_pos] using this.2⟩
  · intro hg
    have hglen : (getPts gt label).length = 0 := List.length_eq_zero.mpr hg
    constructor
    · exact List.mem_append.mpr (Or.inr (List.mem_filter.mpr ⟨hm, by simp [hglen]⟩))
    · intro hmem
      rcases List.mem_append.mp hmem with h0 | hflt
      · exact (mem_fpLabels0.mp h0).2 (mem_matchedIds.mp hm).1
      · have := (List.mem_filter.mp hflt).2
        simp only [decide_eq_true_eq] at this
        omega
  · intro hg hp
    have hglen : 0 < (getPts gt label).length := List.length_pos.mpr hg
    have hplen : (getPts pred label).length = 0 := List.length_eq_zero.mpr hp
    exact List.mem_append.mpr (Or.inr (List.mem_filter.mpr ⟨hm, by simp [hglen, hplen]⟩))

/-- C9: a label present in both mappings with an empty ground-truth point
list and a non-empty prediction list yields exactly the all-zero synthesized
record — its predicted points are not counted as point-level false positives
and it contributes nothing to any point-level tally. -/
theorem empty_gt_matched_record (dist : Point → Point → ℚ) (gt pred : LabeledPointSet)
    (label : String) (hm : label ∈ matchedIds gt pred)
    (hgp : getPts gt label = []) (hpp : getPts pred label ≠ []) :
    (⟨label, 0, 0, 0, 0, some 0, some 0⟩ : PerLabelMetrics)
        ∈ (compute_msa_sample dist gt pred).point_metrics_per_label ∧
    ∀ r ∈ (compute_msa_sample dist gt pred).point_metrics_per_label,
      r.label = label → r = (⟨label, 0, 0, 0, 0, some 0, some 0⟩ : PerLabelMetrics) := by
  have hglen : (getPts gt label).length = 0 := List.length_eq_zero.mpr hgp
  have hrecs : (compute_msa_sample dist gt pred).point_metrics_per_label
      = (alignedSets dist gt pred).1
        ++ (alignedSets dist gt pred).2.1.map (fnRecord gt)
        ++ (alignedSets dist gt pred).2.2.map (fpRecord pred) := rfl
  rw [hrecs, alignedSets_eq]
  dsimp only
  have hfnrec : fnRecord gt label = (⟨label, 0, 0, 0, 0, some 0, some 0⟩ : PerLabelMetrics) := by
    simp [fnRecord, hglen]
  constructor
  · refine List.mem_append.mpr (Or.inl (List.mem_append.mpr (Or.inr ?_)))
    exact hfnrec ▸ List.mem_map.mpr ⟨label,
      List.mem_append.mpr (Or.inr (List.mem_filter.mpr ⟨hm, by simp [hglen]⟩)), rfl⟩
  · intro r hr hlab
    rcases List.mem_append.mp hr with hr' | hfp
    · rcases List.mem_append.mp hr' with hmt | hfn
      · obtain ⟨l', hl', heq⟩ := List.mem_map.mp hmt
        have : l' = label := by rw [← hlab, ← heq]; rfl
        subst this
        have := (List.mem_filter.mp hl').2
        simp only [decide_eq_true_eq] at this
        omega
      · obtain ⟨l', _, heq⟩ := List.mem_map.mp hfn
        have : l' = label := by rw [← hlab, ← heq]; rfl
        subst this
        rw [← heq, hfnrec]
    · obtain ⟨l', hl', heq⟩ := List.mem_map.mp hfp
      have : l' = label := by rw [← hlab, ← heq]; rfl
      subst this
      exfalso
      rcases List.mem_append.mp hl' with h0 | hflt
      · exact (mem_fpLabels0.mp h0).2 (mem_matchedIds.mp hm).1
      · have := (List.mem_filter.mp hflt).2
        simp only [decide_eq_true_eq] at this
        omega

/-- C1 (amended): for every emitted per-label record, `num_matched +
false_positives` counts that label's predicted points and `num_matched +
false_negatives` its ground-truth points — except for a label present in
both mappings with exactly one empty point list, whose synthesized record
reports zeros on the non-empty side. -/
theorem point_conservation (dist : Point → Point → ℚ) (gt pred : LabeledPointSet)
    (r : PerLabelMetrics)
    (hr : r ∈ (compute_msa_sample dist gt pred).point_metrics_per_label)
    (hx : ¬ (r.label ∈ matchedIds gt pred ∧
          ((getPts gt r.label = [] ∧ getPts pred r.label ≠ []) ∨
           (getPts gt r.label ≠ [] ∧ getPts pred r.label = [])))) :
    r.num_matched + r.false_positives = ((getPts pred r.label).length : ℤ) ∧
    r.num_matched + r.false_negatives = ((getPts gt r.label).length : ℤ) := by
  have hrecs : (compute_msa_sample dist gt pred).point_metrics_per_label
      = (alignedSets dist gt pred).1
        ++ (alignedSets dist gt pred).2.1.map (fnRecord gt)
        ++ (alignedSets dist gt pred).2.2.map (fpRecord pred) := rfl
  rw [hrecs, alignedSets_eq] at hr
  dsimp only at hr
  rcases List.mem_append.mp hr with hr' | hfp
  · rcases List.mem_append.mp hr' with hmt | hfn
    · obtain ⟨l', hl', heq⟩ := List.mem_map.mp hmt
      have hlab : r.label = l' := by rw [← heq]; rfl
      rw [hlab, ← heq]
      constructor
      · simp [withLabel, compute_msa_per_label]
      · simp [withLabel, compute_msa_per_label]
    · obtain ⟨l', hl', heq⟩ := List.mem_map.mp hfn
      have hlab : r.label = l' := by rw [← heq]; rfl
      have hpred0 : (getPts pred l').length = 0 := by
        rcases List.mem_append.mp hl' with h0 | hflt
        · rw [getPts_of_not_mem pred l' (mem_fnLabels0.mp h0).2]
          rfl
        · have hmem := (List.mem_filter.mp hflt).1
          have hglen := (List.mem_filter.mp hflt).2
          simp only [decide_eq_true_eq] at hglen
          have hgnil : getPts gt l' = [] := List.length_eq_zero.mp hglen
          by_contra hne
          have hpnil : getPts pred l' ≠ [] := by
            simpa [← List.length_eq_zero] using hne
          exact hx ⟨hlab ▸ hmem, by rw [hlab]; exact Or.inl ⟨hgnil, hpnil⟩⟩
      rw [hlab, ← heq]
      constructor
      · simp [fnRecord, hpred0]
      · simp [fnRecord]
  · obtain ⟨l', hl', heq⟩ := List.mem_map.mp hfp
    have hlab : r.label = l' := by rw [← heq]; rfl
    have hgt0 : (getPts gt l').length = 0 := by
      rcases List.mem_append.mp hl' with h0 | hflt
      · rw [getPts_of_not_mem gt l' (mem_fpLabels0.mp h0).2]
        rfl
      · have hmem := (List.mem_filter.mp hflt).1
        have hc := (List.mem_filter.mp hflt).2
        simp only [decide_eq_true_eq] at hc
        have hgnil : getPts gt l' ≠ [] := by
          have := hc.1
          intro he
          rw [he] at this
          simp at this
        have hpnil : getPts pred l' = [] := List.length_eq_zero.mp hc.2
        exact absurd ⟨hlab ▸ hmem, by rw [hlab]; exact Or.inr ⟨hgnil, hpnil⟩⟩ hx
    rw [hlab, ← heq]
    constructor
    · simp [fpRecord]
    · simp [fpRecord, hgt0]

/-- C2 (amended): the three label counts of a `SampleMetrics` are the sizes
of the ORIGINAL intersection and set differences — all captured when the
`metrics` dict literal is built, i.e. before the reclassification loop
mutates the fn/fp sets — while `point_metrics_per_label` is the
concatenation of the matched-label records with the records synthesized
from the POST-reclassification fn/fp sets. -/
theorem msa_sample_counts (dist : Point → Point → ℚ) (gt pred : LabeledPointSet) :
    (compute_msa_sample dist gt pred).num_matched_labels
        = ((((labelSet gt).toFinset ∩ (labelSet pred).toFinset).card : ℕ) : ℤ) ∧
    (compute_msa_sample dist gt pred).false_positive_labels
        = ((((labelSet pred).toFinset \ (labelSet gt).toFinset).card : ℕ) : ℤ) ∧
    (compute_msa_sample dist gt pred).false_negative_labels
        = ((((labelSet gt).toFinset \ (labelSet pred).toFinset).card : ℕ) : ℤ) ∧
    (compute_msa_sample dist gt pred).point_metrics_per_label
        = (alignedSets dist gt pred).1
          ++ (alignedSets dist gt pred).2.1.map (fnRecord gt)
          ++ (alignedSets dist gt pred).2.2.map (fpRecord pred) := by
  refine ⟨?_, ?_, ?_, rfl⟩
  · have h := length_filter_mem (labelSet gt) (labelSet pred) (List.nodup_dedup _)
    simp only [compute_msa_sample, matchedIds]
    exact_mod_cast h
  · have h := length_filter_not_mem (labelSet pred) (labelSet gt) (List.nodup_dedup _)
    simp only [compute_msa_sample, fpLabels0]
    exact_mod_cast h
  · have h := length_filter_not_mem (labelSet gt) (labelSet pred) (List.nodup_dedup _)
    simp only [compute_msa_sample, fnLabels0]
    exact_mod_cast h

/-- C2, counterexample to the claim as stated: on a sample whose single
label "A" is in both mappings with an empty ground-truth point list, the
label is reclassified into the false-negative set (its final size is 1),
yet the returned `false_negative_labels` count is 0, because the source
takes `len(false_negative_labels)` before the reclassification loop. -/
theorem msa_sample_counts_counterexample :
    (compute_msa_sample (fun _ _ => 0) [("A", [])]
        [("A", [((0 : ℚ), (0 : ℚ))])]).false_negative_labels = 0 ∧
    ((alignedSets (fun _ _ => 0) [("A", [])]
        [("A", [((0 : ℚ), (0 : ℚ))])]).2.1.length : ℤ) = 1 ∧
    (compute_msa_sample (fun _ _ => 0) [("A", [])]
        [("A", [((0 : ℚ), (0 : ℚ))])]).false_negative_labels
      ≠ ((alignedSets (fun _ _ => 0) [("A", [])]
        [("A", [((0 : ℚ), (0 : ℚ))])]).2.1.length : ℤ) := by
  refine ⟨rfl, rfl, ?_⟩
  intro h
  have h0 : (compute_msa_sample (fun _ _ => 0) [("A", [])]
      [("A", [((0 : ℚ), (0 : ℚ))])]).false_negative_labels = (0 : ℤ) := rfl
  have h1 : ((alignedSets (fun _ _ => 0) [("A", [])]
      [("A", [((0 : ℚ), (0 : ℚ))])]).2.1.length : ℤ) = (1 : ℤ) := rfl
  rw [h0, h1] at h
  exact absurd h (by decide)

/-- Rounding fixes zero. -/
theorem roundTo2_zero : roundTo2 0 = 0 := by
  norm_num [roundTo2, pyRound, Int.fract]

/-- C5 (amended): the corpus-level `avg_euclidean_distance` is the
matched-weighted distance sum over all per-label entries divided by the
total matched point count — each matched point pair contributing equally —
ROUNDED to two decimal places, and it is positive infinity (`none`) whenever
the total matched point count is zero. -/
theorem corpus_avg_distance (msa : List SampleMetrics) :
    (0 < ((msa.flatMap (·.point_metrics_per_label)).map (·.num_matched)).sum →
      (summarize_msa msa).point_metrics.avg_euclidean_distance
        = some (roundTo2
            (((msa.flatMap (·.point_metrics_per_label)).map
                (fun p => p.average_euclidean_distance * (p.num_matched : ℚ))).sum
              / ((((msa.flatMap (·.point_metrics_per_label)).map (·.num_matched)).sum : ℤ) : ℚ)))) ∧
    (((msa.flatMap (·.point_metrics_per_label)).map (·.num_matched)).sum = 0 →
      (summarize_msa msa).point_metrics.avg_euclidean_distance = none) := by
  constructor
  · intro hpos
    simp only [summarize_msa, avg_euclidean_distance, summarize_tally_eq]
    rw [if_pos hpos]
    rfl
  · intro hzero
    simp only [summarize_msa, avg_euclidean_distance, summarize_tally_eq]
    rw [if_neg (by rw [hzero]; exact lt_irrefl 0)]
    rfl

/-- C5, counterexample to the claim as stated: a corpus with one matched
point pair at average distance 1/3 yields a returned corpus average of
33/100 (the quotient rounded to two decimals), not the exact quotient 1/3. -/
theorem corpus_avg_distance_counterexample :
    (summarize_msa [⟨0, 0, 0, [⟨"A", 1/3, 1, 0, 0, none, none⟩]⟩]).point_metrics.avg_euclidean_distance
      ≠ some
        ((([(⟨0, 0, 0, [⟨"A", 1/3, 1, 0, 0, none, none⟩]⟩ :
              SampleMetrics)].flatMap (·.point_metrics_per_label)).map
            (fun p => p.average_euclidean_distance * (p.num_matched : ℚ))).sum
          / (((([(⟨0, 0, 0, [⟨"A", 1/3, 1, 0, 0, none, none⟩]⟩ :
              SampleMetrics)].flatMap (·.point_metrics_per_label)).map
            (·.num_matched)).sum : ℤ) : ℚ)) := by
  have ht : summarize_tally [⟨0, 0, 0, [⟨"A", 1/3, 1, 0, 0, none, none⟩]⟩]
      = ((0, 0, 0), (1, 0, 0, 1/3)) := by
    norm_num [summarize_tally]
  have hlhs : (summarize_msa
      [⟨0, 0, 0, [⟨"A", 1/3, 1, 0, 0, none, none⟩]⟩]).point_metrics.avg_euclidean_distance
      = some (roundTo2 (1/3)) := by
    simp only [summarize_msa, avg_euclidean_distance, ht]
    norm_num
  have hround : roundTo2 (1/3 : ℚ) = 33/100 := by
    have hfract : Int.fract ((1/3 : ℚ) * 100) = 1/3 := by
      norm_num [Int.fract]
    rw [roundTo2, pyRound, if_neg (by rw [hfract]; norm_num)]
    rw [show round ((1/3 : ℚ) * 100) = 33 from by norm_num [round_eq]]
    norm_num
  have hrhs : (([(⟨0, 0, 0, [⟨"A", 1/3, 1, 0, 0, none, none⟩]⟩ :
        SampleMetrics)].flatMap (·.point_metrics_per_label)).map
        (fun p => p.average_euclidean_distance * (p.num_matched : ℚ))).sum
      / (((([(⟨0, 0, 0, [⟨"A", 1/3, 1, 0, 0, none, none⟩]⟩ :
        SampleMetrics)].flatMap (·.point_metrics_per_label)).map
        (·.num_matched)).sum : ℤ) : ℚ) = 1/3 := by
    norm_num
  rw [hlhs, hround, hrhs]
  norm_num

/-- C6: on an empty corpus, both metric blocks come back with
precision = recall = f1 = 0 and the average distance is positive infinity
(`none`); in general, every precision/recall/F1 ratio whose denominator is
zero is returned as 0 instead of raising a division error. -/
theorem summarize_zero_denominators :
    summarize_msa [] = ⟨⟨0, 0, 0⟩, ⟨0, 0, 0, none⟩⟩ ∧
    ∀ msa : List SampleMetrics,
      ((msa.map (·.num_matched_labels)).sum + (msa.map (·.false_positive_labels)).sum = 0 →
        (summarize_msa msa).label_metrics.precision = 0) ∧
      ((msa.map (·.num_matched_labels)).sum + (msa.map (·.false_negative_labels)).sum = 0 →
        (summarize_msa msa).label_metrics.«recall» = 0) ∧
      (label_precision msa + label_recall msa = 0 →
        (summarize_msa msa).label_metrics.f1 = 0) ∧
      (((msa.flatMap (·.point_metrics_per_label)).map (·.num_matched)).sum
          + ((msa.flatMap (·.point_metrics_per_label)).map (·.false_positives)).sum = 0 →
        (summarize_msa msa).point_metrics.precision = 0) ∧
      (((msa.flatMap (·.point_metrics_per_label)).map (·.num_matched)).sum
          + ((msa.flatMap (·.point_metrics_per_label)).map (·.false_negatives)).sum = 0 →
        (summarize_msa msa).point_metrics.«recall» = 0) ∧
      (point_precision msa + point_recall msa = 0 →
        (summarize_msa msa).point_metrics.f1 = 0) := by
  constructor
  · have h0 : summarize_tally ([] : List SampleMetrics) = ((0, 0, 0), (0, 0, 0, 0)) := rfl
    simp [summarize_msa, label_precision, label_recall, label_f1, point_precision,
      point_recall, point_f1, avg_euclidean_distance, h0, roundTo2_zero]
  · intro msa
    refine ⟨?_, ?_, ?_, ?_, ?_, ?_⟩
    · intro h
      have hlp : label_precision msa = 0 := by
        simp only [label_precision, summarize_tally_eq]
        rw [if_neg (by omega)]
      simp [summarize_msa, hlp, roundTo2_zero]
    · intro h
      have hlr : label_recall msa = 0 := by
        simp only [label_recall, summarize_tally_eq]
        rw [if_neg (by omega)]
      simp [summarize_msa, hlr, roundTo2_zero]
    · intro h
      have hf1 : label_f1 msa = 0 := by
        rw [label_f1, if_neg (by rw [h]; exact lt_irrefl 0)]
      simp [summarize_msa, hf1, roundTo2_zero]
    · intro h
      have hpp : point_precision msa = 0 := by
        simp only [point_precision, summarize_tally_eq]
        rw [if_neg (by omega)]
      simp [summarize_msa, hpp, roundTo2_zero]
    · intro h
      have hpr : point_recall msa = 0 := by
        simp only [point_recall, summarize_tally_eq]
        rw [if_neg (by omega)]
      simp [summarize_msa, hpr, roundTo2_zero]
    · intro h
      have hf1 : point_f1 msa = 0 := by
        rw [point_f1, if_neg (by rw [h]; exact lt_irrefl 0)]
      simp [summarize_msa, hf1, roundTo2_zero]

/-- C1, counterexample to the claim as stated: the sample with label "A" in
both mappings, empty ground-truth points and one predicted point, emits only
the all-zero synthesized record, for which `num_matched + false_positives`
is 0 while the label has 1 predicted point. -/
theorem point_conservation_counterexample :
    ¬ ∀ r ∈ (compute_msa_sample (fun _ _ => 0) [("A", [])]
          [("A", [((0 : ℚ), (0 : ℚ))])]).point_metrics_per_label,
        r.num_matched + r.false_positives
            = ((getPts [("A", [((0 : ℚ), (0 : ℚ))])] r.label).length : ℤ) ∧
        r.num_matched + r.false_negatives
            = ((getPts [("A", ([] : List Point))] r.label).length : ℤ) := by
  decide

/-- Witness for C1's amended conservation theorem at a concrete sample. -/
theorem point_conservation_witness :
    ((⟨"A", 0, 0, 0, 0, some 0, some 0⟩ : PerLabelMetrics)
        ∈ (compute_msa_sample (fun _ _ => 0) [("A", ([] : List Point))]
            ([] : LabeledPointSet)).point_metrics_per_label) ∧
    (⟨"A", 0, 0, 0, 0, some 0, some 0⟩ : PerLabelMetrics).num_matched
        + (⟨"A", 0, 0, 0, 0, some 0, some 0⟩ : PerLabelMetrics).false_positives
      = ((getPts ([] : LabeledPointSet)
          (⟨"A", 0, 0, 0, 0, some 0, some 0⟩ : PerLabelMetrics).label).length : ℤ) ∧
    (⟨"A", 0, 0, 0, 0, some 0, some 0⟩ : PerLabelMetrics).num_matched
        + (⟨"A", 0, 0, 0, 0, some 0, some 0⟩ : PerLabelMetrics).false_negatives
      = ((getPts [("A", ([] : List Point))]
          (⟨"A", 0, 0, 0, 0, some 0, some 0⟩ : PerLabelMetrics).label).length : ℤ) :=
  ⟨by decide,
   point_conservation (fun _ _ => 0) [("A", ([] : List Point))] ([] : LabeledPointSet)
     ⟨"A", 0, 0, 0, 0, some 0, some 0⟩ (by decide) (by decide)⟩

/-- Witness for C3's optimality theorem: 2 ground-truth points versus 1
predicted point (so columns inject into rows), pairing column 0 to row 0. -/
theorem point_matcher_optimal_witness :
    ([((0 : ℚ), (0 : ℚ)), ((1 : ℚ), (1 : ℚ))] : List Point) ≠ [] ∧
    ([((0 : ℚ), (0 : ℚ))] : List Point) ≠ [] ∧
    totalCost
        (costMatrix (fun _ _ => 0) [((0 : ℚ), (0 : ℚ)), ((1 : ℚ), (1 : ℚ))]
          [((0 : ℚ), (0 : ℚ))])
        (linear_sum_assignment
          ([((0 : ℚ), (0 : ℚ)), ((1 : ℚ), (1 : ℚ))] : List Point).length
          ([((0 : ℚ), (0 : ℚ))] : List Point).length
          (costMatrix (fun _ _ => 0) [((0 : ℚ), (0 : ℚ)), ((1 : ℚ), (1 : ℚ))]
            [((0 : ℚ), (0 : ℚ))]))
      ≤ ((List.range ([((0 : ℚ), (0 : ℚ))] : List Point).length).map
          (fun j => costMatrix (fun _ _ => 0) [((0 : ℚ), (0 : ℚ)), ((1 : ℚ), (1 : ℚ))]
            [((0 : ℚ), (0 : ℚ))] 0 j)).sum :=
  ⟨by decide, by decide,
   (point_matcher_optimal (fun _ _ => 0) [((0 : ℚ), (0 : ℚ)), ((1 : ℚ), (1 : ℚ))]
       [((0 : ℚ), (0 : ℚ))] (by decide) (by decide)).2
     (by decide) (fun _ => 0) (fun _ _ => by exact Nat.zero_lt_succ 1)
     (fun i j hi hj _ => by
       exact (Nat.lt_one_iff.mp hi).trans (Nat.lt_one_iff.mp hj).symm)⟩

/-- Witness for C4's count theorem at sizes n = 2, m = 1. -/
theorem point_matcher_counts_witness :
    ([((0 : ℚ), (0 : ℚ)), ((1 : ℚ), (1 : ℚ))] : List Point) ≠ [] ∧
    ([((0 : ℚ), (0 : ℚ))] : List Point) ≠ [] ∧
    (compute_msa_per_label (fun _ _ => 0) [((0 : ℚ), (0 : ℚ)), ((1 : ℚ), (1 : ℚ))]
        [((0 : ℚ), (0 : ℚ))]).num_matched
      = ((min ([((0 : ℚ), (0 : ℚ)), ((1 : ℚ), (1 : ℚ))] : List Point).length
            ([((0 : ℚ), (0 : ℚ))] : List Point).length : ℕ) : ℤ) ∧
    (compute_msa_per_label (fun _ _ => 0) [((0 : ℚ), (0 : ℚ)), ((1 : ℚ), (1 : ℚ))]
        [((0 : ℚ), (0 : ℚ))]).false_positives
      = (([((0 : ℚ), (0 : ℚ))] : List Point).length : ℤ)
        - ((min ([((0 : ℚ), (0 : ℚ)), ((1 : ℚ), (1 : ℚ))] : List Point).length
            ([((0 : ℚ), (0 : ℚ))] : List Point).length : ℕ) : ℤ) ∧
    (compute_msa_per_label (fun _ _ => 0) [((0 : ℚ), (0 : ℚ)), ((1 : ℚ), (1 : ℚ))]
        [((0 : ℚ), (0 : ℚ))]).false_negatives
      = (([((0 : ℚ), (0 : ℚ)), ((1 : ℚ), (1 : ℚ))] : List Point).length : ℤ)
        - ((min ([((0 : ℚ), (0 : ℚ)), ((1 : ℚ), (1 : ℚ))] : List Point).length
            ([((0 : ℚ), (0 : ℚ))] : List Point).length : ℕ) : ℤ) ∧
    (compute_msa_per_label (fun _ _ => 0) [((0 : ℚ), (0 : ℚ)), ((1 : ℚ), (1 : ℚ))]
        [((0 : ℚ), (0 : ℚ))]).average_euclidean_distance
      = ((linear_sum_assignment
            ([((0 : ℚ), (0 : ℚ)), ((1 : ℚ), (1 : ℚ))] : List Point).length
            ([((0 : ℚ), (0 : ℚ))] : List Point).length
            (costMatrix (fun _ _ => 0) [((0 : ℚ), (0 : ℚ)), ((1 : ℚ), (1 : ℚ))]
              [((0 : ℚ), (0 : ℚ))])).map
          (fun pr => costMatrix (fun _ _ => 0) [((0 : ℚ), (0 : ℚ)), ((1 : ℚ), (1 : ℚ))]
            [((0 : ℚ), (0 : ℚ))] pr.1 pr.2)).sum
        / ((min ([((0 : ℚ), (0 : ℚ)), ((1 : ℚ), (1 : ℚ))] : List Point).length
            ([((0 : ℚ), (0 : ℚ))] : List Point).length : ℕ) : ℚ) :=
  ⟨by decide, by decide,
   (point_matcher_counts (fun _ _ => 0) [((0 : ℚ), (0 : ℚ)), ((1 : ℚ), (1 : ℚ))]
     [((0 : ℚ), (0 : ℚ))] (by decide) (by decide)).1,
   (point_matcher_counts (fun _ _ => 0) [((0 : ℚ), (0 : ℚ)), ((1 : ℚ), (1 : ℚ))]
     [((0 : ℚ), (0 : ℚ))] (by decide) (by decide)).2.1,
   (point_matcher_counts (fun _ _ => 0) [((0 : ℚ), (0 : ℚ)), ((1 : ℚ), (1 : ℚ))]
     [((0 : ℚ), (0 : ℚ))] (by decide) (by decide)).2.2.1,
   (point_matcher_counts (fun _ _ => 0) [((0 : ℚ), (0 : ℚ)), ((1 : ℚ), (1 : ℚ))]
     [((0 : ℚ), (0 : ℚ))] (by decide) (by decide)).2.2.2⟩

/-- Witness for C5's amended corpus-average theorem on a one-pair corpus. -/
theorem corpus_avg_distance_witness :
    0 < (([(⟨0, 0, 0, [⟨"A", 1/3, 1, 0, 0, none, none⟩]⟩ : SampleMetrics)].flatMap
        (·.point_metrics_per_label)).map (·.num_matched)).sum ∧
    (summarize_msa
        [⟨0, 0, 0, [⟨"A", 1/3, 1, 0, 0, none, none⟩]⟩]).point_metrics.avg_euclidean_distance
      = some (roundTo2
          ((([(⟨0, 0, 0, [⟨"A", 1/3, 1, 0, 0, none, none⟩]⟩ : SampleMetrics)].flatMap
              (·.point_metrics_per_label)).map
              (fun p => p.average_euclidean_distance * (p.num_matched : ℚ))).sum
            / ((((([(⟨0, 0, 0, [⟨"A", 1/3, 1, 0, 0, none, none⟩]⟩ : SampleMetrics)].flatMap
              (·.point_metrics_per_label)).map (·.num_matched)).sum : ℤ) : ℚ)))) :=
  ⟨by decide,
   (corpus_avg_distance [⟨0, 0, 0, [⟨"A", 1/3, 1, 0, 0, none, none⟩]⟩]).1 (by decide)⟩

/-- Witness for C6's zero-denominator theorem on the empty corpus. -/
theorem summarize_zero_denominators_witness :
    ((([] : List SampleMetrics).map (·.num_matched_labels)).sum
        + (([] : List SampleMetrics).map (·.false_positive_labels)).sum = 0) ∧
    (summarize_msa []).label_metrics.precision = 0 ∧
    (label_precision [] + label_recall [] = 0) ∧
    (summarize_msa []).label_metrics.f1 = 0 :=
  ⟨by decide,
   (summarize_zero_denominators.2 []).1 (by decide),
   by simp [label_precision, label_recall, summarize_tally],
   (summarize_zero_denominators.2 []).2.2.1
     (by simp [label_precision, label_recall, summarize_tally])⟩

/-- Witness for C7's branch-policy theorem on a sample with one matched
label carrying one point on each side. -/
theorem matched_label_policy_witness :
    ("A" ∈ matchedIds [("A", [((0 : ℚ), (0 : ℚ))])] [("A", [((0 : ℚ), (0 : ℚ))])]) ∧
    ((getPts [("A", [((0 : ℚ), (0 : ℚ))])] "A" ≠ [] ∧
        getPts [("A", [((0 : ℚ), (0 : ℚ))])] "A" ≠ []) ↔
        withLabel "A" (compute_msa_per_label (fun _ _ => 0)
            (getPts [("A", [((0 : ℚ), (0 : ℚ))])] "A")
            (getPts [("A", [((0 : ℚ), (0 : ℚ))])] "A"))
          ∈ (alignedSets (fun _ _ => 0) [("A", [((0 : ℚ), (0 : ℚ))])]
              [("A", [((0 : ℚ), (0 : ℚ))])]).1) ∧
    (getPts [("A", [((0 : ℚ), (0 : ℚ))])] "A" = [] →
        "A" ∈ (alignedSets (fun _ _ => 0) [("A", [((0 : ℚ), (0 : ℚ))])]
            [("A", [((0 : ℚ), (0 : ℚ))])]).2.1 ∧
        "A" ∉ (alignedSets (fun _ _ => 0) [("A", [((0 : ℚ), (0 : ℚ))])]
            [("A", [((0 : ℚ), (0 : ℚ))])]).2.2) ∧
    (getPts [("A", [((0 : ℚ), (0 : ℚ))])] "A" ≠ [] →
        getPts [("A", [((0 : ℚ), (0 : ℚ))])] "A" = [] →
        "A" ∈ (alignedSets (fun _ _ => 0) [("A", [((0 : ℚ), (0 : ℚ))])]
            [("A", [((0 : ℚ), (0 : ℚ))])]).2.2) :=
  ⟨by decide,
   matched_label_policy (fun _ _ => 0) [("A", [((0 : ℚ), (0 : ℚ))])]
     [("A", [((0 : ℚ), (0 : ℚ))])] "A" (by decide)⟩

/-- Witness for C9's synthesized-record theorem on a sample whose matched
label has no ground-truth points but one predicted point. -/
theorem empty_gt_matched_record_witness :
    ("A" ∈ matchedIds [("A", ([] : List Point))] [("A", [((0 : ℚ), (0 : ℚ))])]) ∧
    (getPts [("A", ([] : List Point))] "A" = []) ∧
    (getPts [("A", [((0 : ℚ), (0 : ℚ))])] "A" ≠ []) ∧
    ((⟨"A", 0, 0, 0, 0, some 0, some 0⟩ : PerLabelMetrics)
        ∈ (compute_msa_sample (fun _ _ => 0) [("A", ([] : List Point))]
            [("A", [((0 : ℚ), (0 : ℚ))])]).point_metrics_per_label ∧
      ∀ r ∈ (compute_msa_sample (fun _ _ => 0) [("A", ([] : List Point))]
            [("A", [((0 : ℚ), (0 : ℚ))])]).point_metrics_per_label,
        r.label = "A" → r = (⟨"A", 0, 0, 0, 0, some 0, some 0⟩ : PerLabelMetrics)) :=
  ⟨by decide, by decide, by decide,
   empty_gt_matched_record (fun _ _ => 0) [("A", ([] : List Point))]
     [("A", [((0 : ℚ), (0 : ℚ))])] "A" (by decide) (by decide) (by decide)⟩
